import Mathlib

/-!
# Verification of the DSA ASN.1 codec (`pkcs11/util/dsa.py`)

Shallow embedding of the DSA key/signature conversion utilities.  Byte
strings are modelled as `List Nat` (each entry a byte value `< 256` where
that matters).  Python's unbounded integers are `Nat`/`Int`; the DER
decoder produces `Int` because ASN.1 INTEGER is signed.  Fallible Python
code (exceptions) is modelled with `Except CodecError`.

The DER layer models the behaviour of the `pyasn1` encoder/decoder on the
fixed RFC 3279 schemas used by the code: `Dss-Sig-Value ::= SEQUENCE
{r INTEGER, s INTEGER}`, `Dss-Parms ::= SEQUENCE {p, q, g INTEGER}` and
`DSAPublicKey ::= INTEGER`.  The decoder consumes a definite-length prefix
of the input and returns the remaining bytes, exactly as
`pyasn1.codec.der.decoder.decode` returns `(object, remainingSubstrate)`.
-/

set_option maxRecDepth 8000

namespace Pkcs11

/-- Byte strings: Python `bytes` as a list of byte values. -/
abbrev Bytes := List Nat

/-- Python `int.from_bytes(bs, byteorder='big')`: big-endian unsigned interpretation.
The empty buffer maps to zero. -/
def fromBytesBE : Bytes → Nat
  | [] => 0
  | b :: bs => b * 256 ^ bs.length + fromBytesBE bs

/-- Fixed-width big-endian bytes of `n` (`k` bytes); the byte-string payload
of Python's `n.to_bytes(k, byteorder='big')` when it succeeds. -/
def natToBytesFixed : Nat → Nat → Bytes
  | 0, _ => []
  | k + 1, n => n / 256 ^ k :: natToBytesFixed k (n % 256 ^ k)

/-- Minimal big-endian byte string of `n` (fuel-driven so that it computes
by kernel reduction); `minBytesAux fuel n` is meaningful when `n ≤ fuel`. -/
def minBytesAux : Nat → Nat → Bytes
  | 0, _ => []
  | fuel + 1, n => if n = 0 then [] else minBytesAux fuel (n / 256) ++ [n % 256]

/-- Minimal big-endian byte string of `n`; empty for `n = 0`.  This is
Python's `n.to_bytes((n.bit_length() + 7) // 8, byteorder='big')`. -/
def minBytesBE (n : Nat) : Bytes := minBytesAux n n

/-- Modelled from the spec: the big-integer byte encoder (section 4.1, the
`biginteger` helper of `pkcs11/util`, whose source is not part of the given
files).  It produces the shortest big-endian byte sequence representing a
non-negative integer; the value zero encodes as a single zero byte. -/
def bigintEncode (n : Nat) : Bytes := if n = 0 then [0] else minBytesBE n

/-- The error kinds of the spec (section 7). -/
inductive CodecError
  | DECODE_ERROR
  | MISSING_ATTRIBUTE
  | INVALID_INPUT
  | OVERFLOW
deriving DecidableEq

/-- Modelled from the spec: the `biginteger` conversion applied to a decoded
(signed) ASN.1 integer: fails on a negative integer with INVALID_INPUT,
otherwise yields the minimal big-endian bytes. -/
def biginteger (v : Int) : Except CodecError Bytes :=
  if v < 0 then .error .INVALID_INPUT else .ok (bigintEncode v.toNat)

/-- Python `v.to_bytes(k, byteorder='big')`: `none` models the
`OverflowError` raised when `v` is negative or does not fit in `k` bytes. -/
def to_bytes (k : Nat) (v : Int) : Option Bytes :=
  if 0 ≤ v ∧ v < (256 : Int) ^ k then some (natToBytesFixed k v.toNat) else none

/-! ## DER layer (pyasn1 on the RFC 3279 schemas) -/

/-- DER content octets of a non-negative INTEGER (two's complement, minimal):
a leading zero byte is inserted when the top bit of the minimal magnitude
bytes is set; zero encodes as a single zero byte. -/
def derIntContent (n : Nat) : Bytes :=
  if n = 0 then [0]
  else if 128 ≤ (minBytesBE n).headI then 0 :: minBytesBE n
  else minBytesBE n

/-- Signed value of INTEGER content octets (two's complement, big-endian);
empty content decodes to zero, as pyasn1's `from_bytes` does. -/
def derIntValue (content : Bytes) : Int :=
  if 128 ≤ content.headI then
    (fromBytesBE content : Int) - (256 : Int) ^ content.length
  else (fromBytesBE content : Int)

/-- DER definite-length octets: short form below 128, long form above. -/
def encodeLength (n : Nat) : Bytes :=
  if n < 128 then [n] else (128 + (minBytesBE n).length) :: minBytesBE n

/-- The DER encoding of a non-negative INTEGER (tag `0x02`). -/
def encodeDerIntNat (n : Nat) : Bytes :=
  2 :: (encodeLength (derIntContent n).length ++ derIntContent n)

/-- The DER encoding of a SEQUENCE (tag `0x30`) with the given content. -/
def encodeDerSeq (content : Bytes) : Bytes :=
  48 :: (encodeLength content.length ++ content)

/-- Read DER definite-length octets, returning the length and the rest.
The indefinite form (`0x80`) is rejected, as pyasn1's DER decoder does. -/
def decodeLength : Bytes → Option (Nat × Bytes)
  | [] => none
  | b :: rest =>
    if b < 128 then some (b, rest)
    else if b = 128 then none
    else if b - 128 ≤ rest.length then
      some (fromBytesBE (rest.take (b - 128)), rest.drop (b - 128))
    else none

/-- Parse one DER INTEGER from the front of the input, returning its signed
value and the unconsumed bytes. -/
def parseInteger : Bytes → Option (Int × Bytes)
  | [] => none
  | t :: rest =>
    if t = 2 then
      (decodeLength rest).bind fun lr =>
        if lr.1 ≤ lr.2.length then
          some (derIntValue (lr.2.take lr.1), lr.2.drop lr.1)
        else none
    else none

/-- Parse one DER SEQUENCE header from the front of the input, returning the
content octets and the unconsumed bytes after the sequence. -/
def parseSeqContent : Bytes → Option (Bytes × Bytes)
  | [] => none
  | t :: rest =>
    if t = 48 then
      (decodeLength rest).bind fun lr =>
        if lr.1 ≤ lr.2.length then some (lr.2.take lr.1, lr.2.drop lr.1)
        else none
    else none

/-- pyasn1 `decoder.decode(der, asn1Spec=Dss_Sig_Value())`: a SEQUENCE of two
INTEGERs `r, s`; the sequence content must be exhausted, trailing bytes after
the sequence are returned as the remainder. -/
def decodeDssSigValue (der : Bytes) : Option ((Int × Int) × Bytes) :=
  (parseSeqContent der).bind fun cr =>
  (parseInteger cr.1).bind fun r1 =>
  (parseInteger r1.2).bind fun s1 =>
  if s1.2 = [] then some ((r1.1, s1.1), cr.2) else none

/-- pyasn1 `decoder.decode(der, asn1Spec=Dss_Parms())`: a SEQUENCE of three
INTEGERs `p, q, g` (RFC 3279 wire order). -/
def decodeDssParms (der : Bytes) : Option ((Int × Int × Int) × Bytes) :=
  (parseSeqContent der).bind fun cr =>
  (parseInteger cr.1).bind fun p1 =>
  (parseInteger p1.2).bind fun q1 =>
  (parseInteger q1.2).bind fun g1 =>
  if g1.2 = [] then some ((p1.1, q1.1, g1.1), cr.2) else none

/-! ## The attribute map -/

/-- The PKCS #11 attribute identifiers used by this module. -/
inductive Attribute
  | BASE
  | PRIME
  | SUBPRIME
  | VALUE
deriving DecidableEq

/-- Attribute maps: a partial map from attribute identifiers to buffers. -/
abbrev AttrMap := Attribute → Option Bytes

deriving instance DecidableEq for Except

/-! ## The five functions of `pkcs11/util/dsa.py` -/

/-- The dictionary literal built by `decode_dsa_domain_parameters`:
`{BASE: gb, PRIME: pb, SUBPRIME: qb}`. -/
def paramsMap (gb pb qb : Bytes) : AttrMap := fun a =>
  match a with
  | .BASE => some gb
  | .PRIME => some pb
  | .SUBPRIME => some qb
  | .VALUE => none

/-- Model of `decode_dsa_domain_parameters(der)`: decode RFC 3279 Dss-Parms and build
`{BASE: biginteger(g), PRIME: biginteger(p), SUBPRIME: biginteger(q)}`. -/
def decode_dsa_domain_parameters (der : Bytes) : Except CodecError AttrMap :=
  match decodeDssParms der with
  | none => .error .DECODE_ERROR
  | some ((p, q, g), _rest) =>
    match biginteger g, biginteger p, biginteger q with
    | .ok gb, .ok pb, .ok qb => .ok (paramsMap gb pb qb)
    | .error e, _, _ => .error e
    | .ok _, .error e, _ => .error e
    | .ok _, .ok _, .error e => .error e

/-- Model of `encode_dsa_domain_parameters(obj)`: read BASE, PRIME, SUBPRIME as
big-endian unsigned integers and emit DER Dss-Parms (wire order p, q, g).
A missing key raises, modelled as MISSING_ATTRIBUTE. -/
def encode_dsa_domain_parameters (obj : AttrMap) : Except CodecError Bytes :=
  match obj Attribute.BASE, obj Attribute.PRIME, obj Attribute.SUBPRIME with
  | some g, some p, some q =>
    .ok (encodeDerSeq
      (encodeDerIntNat (fromBytesBE p) ++ encodeDerIntNat (fromBytesBE q) ++
        encodeDerIntNat (fromBytesBE g)))
  | _, _, _ => .error .MISSING_ATTRIBUTE

/-- Model of `encode_dsa_public_key(key)`: read VALUE as a big-endian unsigned integer
and emit a DER INTEGER (DSAPublicKey). -/
def encode_dsa_public_key (key : AttrMap) : Except CodecError Bytes :=
  match key Attribute.VALUE with
  | some v => .ok (encodeDerIntNat (fromBytesBE v))
  | none => .error .MISSING_ATTRIBUTE

/-- Model of `decode_dsa_public_key(der)`: decode a DER INTEGER (DSAPublicKey) and
return it as `biginteger` bytes. -/
def decode_dsa_public_key (der : Bytes) : Except CodecError Bytes :=
  match parseInteger der with
  | none => .error .DECODE_ERROR
  | some (v, _rest) => biginteger v

/-- Model of `encode_dsa_signature(signature)`: split at `len(signature) // 2`,
interpret both halves as big-endian unsigned integers and emit DER
Dss-Sig-Value.  The code performs no length validation and raises no
exception, so the result is always `.ok`. -/
def encode_dsa_signature (signature : Bytes) : Except CodecError Bytes :=
  .ok (encodeDerSeq
    (encodeDerIntNat (fromBytesBE (signature.take (signature.length / 2))) ++
      encodeDerIntNat (fromBytesBE (signature.drop (signature.length / 2)))))

/-- Model of `decode_dsa_signature(der)`: decode DER Dss-Sig-Value and re-encode `r`
and `s` as exactly 20 bytes each; `int.to_bytes` raising `OverflowError`
(component negative or not fitting 20 bytes) is modelled as OVERFLOW. -/
def decode_dsa_signature (der : Bytes) : Except CodecError Bytes :=
  match decodeDssSigValue der with
  | none => .error .DECODE_ERROR
  | some ((r, s), _rest) =>
    match to_bytes 20 r, to_bytes 20 s with
    | some rb, some sb => .ok (rb ++ sb)
    | _, _ => .error .OVERFLOW

/-! ## Concrete inputs used to instantiate the universally quantified
theorems below -/

/-- A concrete attribute map: BASE, PRIME and SUBPRIME all `[1]`, no VALUE. -/
def parmsMapOne : AttrMap := fun a =>
  match a with
  | .VALUE => none
  | _ => some [1]

/-- A concrete attribute map holding only VALUE, set to the empty buffer. -/
def valueEmptyMap : AttrMap := fun a =>
  match a with
  | .VALUE => some []
  | _ => none

/-- A concrete attribute map holding only VALUE, set to the minimal encoding
of zero. -/
def valueZeroMap : AttrMap := fun a =>
  match a with
  | .VALUE => some (bigintEncode 0)
  | _ => none

/-- The DER encoding of Dss-Parms with `p = q = g = 1`. -/
def parmsDerOne : Bytes := [48, 9, 2, 1, 1, 2, 1, 1, 2, 1, 1]

/-! ## Lemmas about the byte-string conversions -/

theorem Except_ok_bind {ε α β : Type} (a : α) (f : α → Except ε β) :
    (Except.ok a : Except ε α).bind f = f a := rfl

theorem fromBytesBE_cons (b : Nat) (bs : Bytes) :
    fromBytesBE (b :: bs) = b * 256 ^ bs.length + fromBytesBE bs := rfl

theorem fromBytesBE_append_single (xs : Bytes) (b : Nat) :
    fromBytesBE (xs ++ [b]) = 256 * fromBytesBE xs + b := by
  induction xs with
  | nil => simp [fromBytesBE]
  | cons x xs ih =>
    simp only [List.cons_append, fromBytesBE_cons, ih, List.length_append,
      List.length_singleton]
    ring

theorem fromBytesBE_lt (bs : Bytes) (h : ∀ b ∈ bs, b < 256) :
    fromBytesBE bs < 256 ^ bs.length := by
  induction bs with
  | nil => simp [fromBytesBE]
  | cons b bs ih =>
    have hb : b < 256 := h b (List.mem_cons_self _ _)
    have hrec : fromBytesBE bs < 256 ^ bs.length :=
      ih fun x hx => h x (List.mem_cons_of_mem _ hx)
    have hb1 : b + 1 ≤ 256 := hb
    calc fromBytesBE (b :: bs) = b * 256 ^ bs.length + fromBytesBE bs := rfl
      _ < (b + 1) * 256 ^ bs.length := by nlinarith [pow_pos (by norm_num : 0 < 256) bs.length]
      _ ≤ 256 * 256 ^ bs.length := Nat.mul_le_mul_right _ hb1
      _ = 256 ^ (b :: bs).length := by rw [List.length_cons, pow_succ, Nat.mul_comm]

theorem length_natToBytesFixed (k n : Nat) : (natToBytesFixed k n).length = k := by
  induction k generalizing n with
  | zero => rfl
  | succ k ih => simp [natToBytesFixed, ih]

theorem natToBytesFixed_fromBytesBE (bs : Bytes) (h : ∀ b ∈ bs, b < 256) :
    natToBytesFixed bs.length (fromBytesBE bs) = bs := by
  induction bs with
  | nil => rfl
  | cons b bs ih =>
    have hpow : 0 < 256 ^ bs.length := pow_pos (by norm_num) _
    have hlt : fromBytesBE bs < 256 ^ bs.length :=
      fromBytesBE_lt bs fun x hx => h x (List.mem_cons_of_mem _ hx)
    simp only [List.length_cons, natToBytesFixed, fromBytesBE_cons]
    have hdiv : (b * 256 ^ bs.length + fromBytesBE bs) / 256 ^ bs.length = b := by
      rw [Nat.mul_comm b, Nat.mul_add_div hpow, Nat.div_eq_of_lt hlt]
      omega
    have hmod : (b * 256 ^ bs.length + fromBytesBE bs) % 256 ^ bs.length = fromBytesBE bs := by
      rw [Nat.mul_comm b, Nat.mul_add_mod, Nat.mod_eq_of_lt hlt]
    rw [hdiv, hmod, ih fun x hx => h x (List.mem_cons_of_mem _ hx)]

theorem natToBytesFixed_pad (k n : Nat) (h : n < 256 ^ k) :
    natToBytesFixed (k + 1) n = 0 :: natToBytesFixed k n := by
  simp only [natToBytesFixed]
  rw [Nat.div_eq_of_lt h, Nat.mod_eq_of_lt h]

theorem natToBytesFixed_of_le (bs : Bytes) (k : Nat) (hk : bs.length ≤ k)
    (hb : ∀ b ∈ bs, b < 256) :
    natToBytesFixed k (fromBytesBE bs) = List.replicate (k - bs.length) 0 ++ bs := by
  induction k with
  | zero =>
    have : bs = [] := List.length_eq_zero.mp (Nat.le_zero.mp hk)
    subst this; rfl
  | succ k ih =>
    rcases Nat.lt_or_ge bs.length (k + 1) with hlt | hge
    · have hk' : bs.length ≤ k := by omega
      have hlt2 : fromBytesBE bs < 256 ^ k :=
        lt_of_lt_of_le (fromBytesBE_lt bs hb)
          (Nat.pow_le_pow_right (by norm_num) hk')
      rw [natToBytesFixed_pad k _ hlt2, ih hk']
      have : k + 1 - bs.length = (k - bs.length) + 1 := by omega
      rw [this, List.replicate_succ, List.cons_append]
    · have heq : bs.length = k + 1 := le_antisymm hk hge
      rw [← heq, natToBytesFixed_fromBytesBE bs hb]
      simp

theorem minBytesAux_fromBytes (fuel : Nat) : ∀ n : Nat, n ≤ fuel →
    fromBytesBE (minBytesAux fuel n) = n := by
  induction fuel with
  | zero => intro n hn; interval_cases n; rfl
  | succ fuel ih =>
    intro n hn
    by_cases hz : n = 0
    · subst hz; rfl
    · have hrec : n / 256 ≤ fuel := by
        have := Nat.div_lt_self (Nat.pos_of_ne_zero hz) (by norm_num : 1 < 256)
        omega
      simp only [minBytesAux, if_neg hz]
      rw [fromBytesBE_append_single, ih _ hrec, Nat.div_add_mod]

theorem fromBytesBE_minBytesBE (n : Nat) : fromBytesBE (minBytesBE n) = n :=
  minBytesAux_fromBytes n n le_rfl

theorem minBytesAux_lt (fuel : Nat) : ∀ n : Nat, ∀ b ∈ minBytesAux fuel n, b < 256 := by
  induction fuel with
  | zero => intro n b hb; simp [minBytesAux] at hb
  | succ fuel ih =>
    intro n b hb
    by_cases hz : n = 0
    · subst hz; simp [minBytesAux] at hb
    · simp only [minBytesAux, if_neg hz, List.mem_append, List.mem_singleton] at hb
      rcases hb with hb | hb
      · exact ih _ b hb
      · subst hb; exact Nat.mod_lt _ (by norm_num)

theorem minBytesBE_lt (n : Nat) : ∀ b ∈ minBytesBE n, b < 256 :=
  minBytesAux_lt n n

theorem minBytesAux_ne_nil (fuel n : Nat) (hz : n ≠ 0) (hn : n ≤ fuel) :
    minBytesAux fuel n ≠ [] := by
  cases fuel with
  | zero => omega
  | succ fuel => simp [minBytesAux, if_neg hz]

theorem minBytesBE_ne_nil (n : Nat) (hz : n ≠ 0) : minBytesBE n ≠ [] :=
  minBytesAux_ne_nil n n hz le_rfl

theorem fromBytesBE_bigintEncode (n : Nat) : fromBytesBE (bigintEncode n) = n := by
  by_cases hz : n = 0
  · subst hz; rfl
  · simp only [bigintEncode, if_neg hz, fromBytesBE_minBytesBE]

theorem bigintEncode_lt (n : Nat) : ∀ b ∈ bigintEncode n, b < 256 := by
  by_cases hz : n = 0
  · subst hz; intro b hb; simp [bigintEncode] at hb; omega
  · simp only [bigintEncode, if_neg hz]; exact minBytesBE_lt n

theorem biginteger_natCast (n : Nat) : biginteger (n : Int) = .ok (bigintEncode n) := by
  simp [biginteger, Int.toNat_natCast]

theorem to_bytes_natCast (k n : Nat) (h : n < 256 ^ k) :
    to_bytes k (n : Int) = some (natToBytesFixed k n) := by
  have h1 : (0 : Int) ≤ (n : Int) := Int.natCast_nonneg n
  have h2 : (n : Int) < (256 : Int) ^ k := by exact_mod_cast h
  simp [to_bytes, h1, h2, Int.toNat_natCast]

theorem to_bytes_none_neg (k : Nat) (v : Int) (h : v < 0) : to_bytes k v = none := by
  simp only [to_bytes, ite_eq_right_iff]
  intro hc; omega

theorem to_bytes_none_big (k : Nat) (v : Int) (h : (256 : Int) ^ k ≤ v) :
    to_bytes k v = none := by
  simp only [to_bytes, ite_eq_right_iff]
  intro hc; omega

theorem to_bytes_some (k : Nat) (v : Int) (h1 : 0 ≤ v) (h2 : v < (256 : Int) ^ k) :
    to_bytes k v = some (natToBytesFixed k v.toNat) := by
  simp [to_bytes, h1, h2]

/-! ## Round-trip lemmas for the DER layer -/

theorem derIntValue_derIntContent (n : Nat) :
    derIntValue (derIntContent n) = (n : Int) := by
  by_cases hz : n = 0
  · subst hz; rfl
  · simp only [derIntContent, if_neg hz]
    by_cases hh : 128 ≤ (minBytesBE n).headI
    · rw [if_pos hh]
      simp only [derIntValue, List.headI_cons]
      rw [if_neg (by omega)]
      rw [fromBytesBE_cons, fromBytesBE_minBytesBE]
      simp
    · rw [if_neg hh]
      simp only [derIntValue, if_neg hh, fromBytesBE_minBytesBE]

theorem decodeLength_encodeLength (L : Nat) (rest : Bytes) :
    decodeLength (encodeLength L ++ rest) = some (L, rest) := by
  by_cases hs : L < 128
  · simp only [encodeLength, if_pos hs, List.cons_append, List.nil_append]
    simp [decodeLength, hs]
  · have hz : L ≠ 0 := by omega
    have hnil : minBytesBE L ≠ [] := minBytesBE_ne_nil L hz
    have hlen : 1 ≤ (minBytesBE L).length := List.length_pos.mpr hnil
    simp only [encodeLength, if_neg hs, List.cons_append]
    simp only [decodeLength]
    rw [if_neg (by omega), if_neg (by omega)]
    have hsub : 128 + (minBytesBE L).length - 128 = (minBytesBE L).length := by omega
    rw [hsub]
    have hle : (minBytesBE L).length ≤ (minBytesBE L ++ rest).length := by
      rw [List.length_append]; omega
    rw [if_pos hle]
    rw [List.take_left, List.drop_left, fromBytesBE_minBytesBE]

theorem parseInteger_encode (n : Nat) (rest : Bytes) :
    parseInteger (encodeDerIntNat n ++ rest) = some ((n : Int), rest) := by
  simp only [encodeDerIntNat, List.cons_append, List.append_assoc]
  simp only [parseInteger, if_pos rfl, decodeLength_encodeLength, Option.some_bind]
  simp [List.take_left, List.drop_left, derIntValue_derIntContent]

theorem parseSeqContent_encode (c : Bytes) (rest : Bytes) :
    parseSeqContent (encodeDerSeq c ++ rest) = some (c, rest) := by
  simp only [encodeDerSeq, List.cons_append, List.append_assoc]
  simp only [parseSeqContent, if_pos rfl, decodeLength_encodeLength, Option.some_bind]
  simp [List.take_left, List.drop_left]

theorem decodeDssSigValue_encode (a b : Nat) (rest : Bytes) :
    decodeDssSigValue (encodeDerSeq (encodeDerIntNat a ++ encodeDerIntNat b) ++ rest) =
      some (((a : Int), (b : Int)), rest) := by
  simp only [decodeDssSigValue, parseSeqContent_encode, Option.some_bind]
  rw [parseInteger_encode]
  simp only [Option.some_bind]
  rw [show encodeDerIntNat b = encodeDerIntNat b ++ [] from (List.append_nil _).symm,
    parseInteger_encode]
  simp

theorem decodeDssParms_encode (a b c : Nat) (rest : Bytes) :
    decodeDssParms
        (encodeDerSeq (encodeDerIntNat a ++ encodeDerIntNat b ++ encodeDerIntNat c) ++ rest) =
      some (((a : Int), (b : Int), (c : Int)), rest) := by
  simp only [decodeDssParms, parseSeqContent_encode, Option.some_bind, List.append_assoc]
  rw [parseInteger_encode]
  simp only [Option.some_bind]
  rw [parseInteger_encode]
  simp only [Option.some_bind]
  rw [show encodeDerIntNat c = encodeDerIntNat c ++ [] from (List.append_nil _).symm,
    parseInteger_encode]
  simp

/-! ## The decoders consume a definite-length prefix: appending trailing
bytes does not change what they parse -/

theorem decodeLength_extend {d t : Bytes} {L : Nat} {rest : Bytes}
    (h : decodeLength d = some (L, rest)) :
    decodeLength (d ++ t) = some (L, rest ++ t) := by
  cases d with
  | nil => simp [decodeLength] at h
  | cons b r =>
    simp only [decodeLength, List.cons_append] at h ⊢
    by_cases h1 : b < 128
    · simp only [if_pos h1, Option.some.injEq, Prod.mk.injEq] at h ⊢
      exact ⟨h.1, by rw [← h.2]⟩
    · by_cases h2 : b = 128
      · simp [if_neg h1, h2] at h
      · simp only [if_neg h1, if_neg h2] at h ⊢
        by_cases h3 : b - 128 ≤ r.length
        · rw [if_pos h3] at h
          rw [if_pos (by rw [List.length_append]; omega)]
          rw [List.take_append_of_le_length h3, List.drop_append_of_le_length h3]
          simp only [Option.some.injEq, Prod.mk.injEq] at h ⊢
          exact ⟨h.1, by rw [← h.2]⟩
        · rw [if_neg h3] at h; exact absurd h (by simp)

theorem parseInteger_extend {d t : Bytes} {v : Int} {rest : Bytes}
    (h : parseInteger d = some (v, rest)) :
    parseInteger (d ++ t) = some (v, rest ++ t) := by
  cases d with
  | nil => simp [parseInteger] at h
  | cons b r =>
    simp only [parseInteger, List.cons_append] at h ⊢
    by_cases hb : b = 2
    · simp only [if_pos hb] at h ⊢
      cases hdl : decodeLength r with
      | none => rw [hdl] at h; simp at h
      | some p =>
        rw [hdl] at h
        rw [decodeLength_extend hdl]
        simp only [Option.some_bind] at h ⊢
        by_cases hlen : p.1 ≤ p.2.length
        · rw [if_pos hlen] at h
          rw [if_pos (by rw [List.length_append]; omega)]
          rw [List.take_append_of_le_length hlen, List.drop_append_of_le_length hlen]
          simp only [Option.some.injEq, Prod.mk.injEq] at h ⊢
          exact ⟨h.1, by rw [← h.2]⟩
        · rw [if_neg hlen] at h; exact absurd h (by simp)
    · rw [if_neg hb] at h; exact absurd h (by simp)

theorem parseSeqContent_extend {d t : Bytes} {c : Bytes} {rest : Bytes}
    (h : parseSeqContent d = some (c, rest)) :
    parseSeqContent (d ++ t) = some (c, rest ++ t) := by
  cases d with
  | nil => simp [parseSeqContent] at h
  | cons b r =>
    simp only [parseSeqContent, List.cons_append] at h ⊢
    by_cases hb : b = 48
    · simp only [if_pos hb] at h ⊢
      cases hdl : decodeLength r with
      | none => rw [hdl] at h; simp at h
      | some p =>
        rw [hdl] at h
        rw [decodeLength_extend hdl]
        simp only [Option.some_bind] at h ⊢
        by_cases hlen : p.1 ≤ p.2.length
        · rw [if_pos hlen] at h
          rw [if_pos (by rw [List.length_append]; omega)]
          rw [List.take_append_of_le_length hlen, List.drop_append_of_le_length hlen]
          simp only [Option.some.injEq, Prod.mk.injEq] at h ⊢
          exact ⟨h.1, by rw [← h.2]⟩
        · rw [if_neg hlen] at h; exact absurd h (by simp)
    · rw [if_neg hb] at h; exact absurd h (by simp)

theorem decodeDssSigValue_extend {d t : Bytes} {rs : Int × Int} {rest : Bytes}
    (h : decodeDssSigValue d = some (rs, rest)) :
    decodeDssSigValue (d ++ t) = some (rs, rest ++ t) := by
  simp only [decodeDssSigValue] at h ⊢
  cases hsc : parseSeqContent d with
  | none => rw [hsc] at h; simp at h
  | some cr =>
    rw [hsc] at h
    rw [parseSeqContent_extend hsc]
    simp only [Option.some_bind] at h ⊢
    cases h1 : parseInteger cr.1 with
    | none => rw [h1] at h; simp at h
    | some r1 =>
      rw [h1] at h
      simp only [Option.some_bind] at h ⊢
      cases h2 : parseInteger r1.2 with
      | none => rw [h2] at h; simp at h
      | some s1 =>
        rw [h2] at h
        simp only [Option.some_bind] at h ⊢
        by_cases h3 : s1.2 = []
        · rw [if_pos h3] at h
          rw [if_pos h3]
          simp only [Option.some.injEq, Prod.mk.injEq] at h ⊢
          exact ⟨h.1, by rw [← h.2]⟩
        · rw [if_neg h3] at h; exact absurd h (by simp)

theorem decodeDssParms_extend {d t : Bytes} {pqg : Int × Int × Int} {rest : Bytes}
    (h : decodeDssParms d = some (pqg, rest)) :
    decodeDssParms (d ++ t) = some (pqg, rest ++ t) := by
  simp only [decodeDssParms] at h ⊢
  cases hsc : parseSeqContent d with
  | none => rw [hsc] at h; simp at h
  | some cr =>
    rw [hsc] at h
    rw [parseSeqContent_extend hsc]
    simp only [Option.some_bind] at h ⊢
    cases h1 : parseInteger cr.1 with
    | none => rw [h1] at h; simp at h
    | some p1 =>
      rw [h1] at h
      simp only [Option.some_bind] at h ⊢
      cases h2 : parseInteger p1.2 with
      | none => rw [h2] at h; simp at h
      | some q1 =>
        rw [h2] at h
        simp only [Option.some_bind] at h ⊢
        cases h3 : parseInteger q1.2 with
        | none => rw [h3] at h; simp at h
        | some g1 =>
          rw [h3] at h
          simp only [Option.some_bind] at h ⊢
          by_cases h4 : g1.2 = []
          · rw [if_pos h4] at h
            rw [if_pos h4]
            simp only [Option.some.injEq, Prod.mk.injEq] at h ⊢
            exact ⟨h.1, by rw [← h.2]⟩
          · rw [if_neg h4] at h; exact absurd h (by simp)

/-! ## Behaviour of the composed pipelines -/

theorem to_bytes_some_nonneg {k : Nat} {v : Int} {b : Bytes}
    (h : to_bytes k v = some b) : 0 ≤ v := by
  simp only [to_bytes] at h
  by_cases hc : 0 ≤ v ∧ v < (256 : Int) ^ k
  · exact hc.1
  · rw [if_neg hc] at h; exact absurd h (by simp)

theorem decode_dsa_signature_of_none {der : Bytes}
    (h : decodeDssSigValue der = none) :
    decode_dsa_signature der = Except.error CodecError.DECODE_ERROR := by
  unfold decode_dsa_signature
  rw [h]

theorem decode_dsa_signature_of_some {der rest rb sb : Bytes} {r s : Int}
    (h : decodeDssSigValue der = some ((r, s), rest))
    (hr : to_bytes 20 r = some rb) (hs : to_bytes 20 s = some sb) :
    decode_dsa_signature der = Except.ok (rb ++ sb) := by
  unfold decode_dsa_signature
  rw [h]
  have hinner : (match to_bytes 20 r, to_bytes 20 s with
      | some rb2, some sb2 => (Except.ok (rb2 ++ sb2) : Except CodecError Bytes)
      | _, _ => Except.error CodecError.OVERFLOW) = Except.ok (rb ++ sb) := by
    rw [hr, hs]
  exact hinner

theorem decode_dsa_signature_of_overflow_left {der rest : Bytes} {r s : Int}
    (h : decodeDssSigValue der = some ((r, s), rest))
    (hr : to_bytes 20 r = none) :
    decode_dsa_signature der = Except.error CodecError.OVERFLOW := by
  unfold decode_dsa_signature
  rw [h]
  have hinner : (match to_bytes 20 r, to_bytes 20 s with
      | some rb2, some sb2 => (Except.ok (rb2 ++ sb2) : Except CodecError Bytes)
      | _, _ => Except.error CodecError.OVERFLOW) = Except.error CodecError.OVERFLOW := by
    rw [hr]
  exact hinner

theorem decode_dsa_signature_of_overflow_right {der rest : Bytes} {r s : Int}
    (h : decodeDssSigValue der = some ((r, s), rest))
    (hs : to_bytes 20 s = none) :
    decode_dsa_signature der = Except.error CodecError.OVERFLOW := by
  cases hr : to_bytes 20 r with
  | none => exact decode_dsa_signature_of_overflow_left h hr
  | some rb =>
    unfold decode_dsa_signature
    rw [h]
    have hinner : (match to_bytes 20 r, to_bytes 20 s with
        | some rb2, some sb2 => (Except.ok (rb2 ++ sb2) : Except CodecError Bytes)
        | _, _ => Except.error CodecError.OVERFLOW) = Except.error CodecError.OVERFLOW := by
      rw [hr, hs]
    exact hinner

theorem decode_dsa_signature_ok_inv {der out : Bytes}
    (h : decode_dsa_signature der = Except.ok out) :
    ∃ r s : Int, ∃ rest rb sb : Bytes,
      decodeDssSigValue der = some ((r, s), rest) ∧
        to_bytes 20 r = some rb ∧ to_bytes 20 s = some sb ∧ out = rb ++ sb := by
  cases hparse : decodeDssSigValue der with
  | none => rw [decode_dsa_signature_of_none hparse] at h; exact absurd h (by simp)
  | some pr =>
    obtain ⟨⟨r, s⟩, rest⟩ := pr
    cases hr : to_bytes 20 r with
    | none => rw [decode_dsa_signature_of_overflow_left hparse hr] at h
              exact absurd h (by simp)
    | some rb =>
      cases hs : to_bytes 20 s with
      | none => rw [decode_dsa_signature_of_overflow_right hparse hs] at h
                exact absurd h (by simp)
      | some sb =>
        rw [decode_dsa_signature_of_some hparse hr hs] at h
        exact ⟨r, s, rest, rb, sb, rfl, hr, hs, by simpa using h.symm⟩

theorem decode_encode_sig_pad (sig : Bytes) (hb : ∀ b ∈ sig, b < 256)
    (h1 : (sig.take (sig.length / 2)).length ≤ 20)
    (h2 : (sig.drop (sig.length / 2)).length ≤ 20) :
    (encode_dsa_signature sig).bind decode_dsa_signature =
      Except.ok
        ((List.replicate (20 - (sig.take (sig.length / 2)).length) 0 ++
            sig.take (sig.length / 2)) ++
          (List.replicate (20 - (sig.drop (sig.length / 2)).length) 0 ++
            sig.drop (sig.length / 2))) := by
  have hbt : ∀ b ∈ sig.take (sig.length / 2), b < 256 := fun b hbm =>
    hb b (List.take_subset _ _ hbm)
  have hbd : ∀ b ∈ sig.drop (sig.length / 2), b < 256 := fun b hbm =>
    hb b (List.drop_subset _ _ hbm)
  have hrlt : fromBytesBE (sig.take (sig.length / 2)) < 256 ^ 20 :=
    lt_of_lt_of_le (fromBytesBE_lt _ hbt) (Nat.pow_le_pow_right (by norm_num) h1)
  have hslt : fromBytesBE (sig.drop (sig.length / 2)) < 256 ^ 20 :=
    lt_of_lt_of_le (fromBytesBE_lt _ hbd) (Nat.pow_le_pow_right (by norm_num) h2)
  have hparse := decodeDssSigValue_encode (fromBytesBE (sig.take (sig.length / 2)))
    (fromBytesBE (sig.drop (sig.length / 2))) []
  rw [List.append_nil] at hparse
  have henc : encode_dsa_signature sig =
      Except.ok (encodeDerSeq
        (encodeDerIntNat (fromBytesBE (sig.take (sig.length / 2))) ++
          encodeDerIntNat (fromBytesBE (sig.drop (sig.length / 2))))) := rfl
  rw [henc, Except_ok_bind,
    decode_dsa_signature_of_some hparse (to_bytes_natCast _ _ hrlt)
      (to_bytes_natCast _ _ hslt),
    natToBytesFixed_of_le _ _ h1 hbt, natToBytesFixed_of_le _ _ h2 hbd]

theorem decode_params_of_none {der : Bytes} (h : decodeDssParms der = none) :
    decode_dsa_domain_parameters der = Except.error CodecError.DECODE_ERROR := by
  unfold decode_dsa_domain_parameters
  rw [h]

theorem decode_params_of_some_ok {der : Bytes} {p q g : Int} {rest gb pb qb : Bytes}
    (h : decodeDssParms der = some ((p, q, g), rest))
    (hg : biginteger g = Except.ok gb) (hp : biginteger p = Except.ok pb)
    (hq : biginteger q = Except.ok qb) :
    decode_dsa_domain_parameters der = Except.ok (paramsMap gb pb qb) := by
  unfold decode_dsa_domain_parameters
  rw [h]
  have hinner : (match biginteger g, biginteger p, biginteger q with
      | Except.ok gb2, Except.ok pb2, Except.ok qb2 =>
        (Except.ok (paramsMap gb2 pb2 qb2) : Except CodecError AttrMap)
      | Except.error e, _, _ => Except.error e
      | Except.ok _, Except.error e, _ => Except.error e
      | Except.ok _, Except.ok _, Except.error e => Except.error e) =
        Except.ok (paramsMap gb pb qb) := by
    rw [hg, hp, hq]
  exact hinner

theorem decode_params_of_g_error {der : Bytes} {p q g : Int} {rest : Bytes}
    {e : CodecError} (h : decodeDssParms der = some ((p, q, g), rest))
    (hg : biginteger g = Except.error e) :
    decode_dsa_domain_parameters der = Except.error e := by
  unfold decode_dsa_domain_parameters
  rw [h]
  have hinner : (match biginteger g, biginteger p, biginteger q with
      | Except.ok gb2, Except.ok pb2, Except.ok qb2 =>
        (Except.ok (paramsMap gb2 pb2 qb2) : Except CodecError AttrMap)
      | Except.error e2, _, _ => Except.error e2
      | Except.ok _, Except.error e2, _ => Except.error e2
      | Except.ok _, Except.ok _, Except.error e2 => Except.error e2) =
        Except.error e := by
    rw [hg]
  exact hinner

theorem decode_params_of_p_error {der : Bytes} {p q g : Int} {rest gb : Bytes}
    {e : CodecError} (h : decodeDssParms der = some ((p, q, g), rest))
    (hg : biginteger g = Except.ok gb) (hp : biginteger p = Except.error e) :
    decode_dsa_domain_parameters der = Except.error e := by
  unfold decode_dsa_domain_parameters
  rw [h]
  have hinner : (match biginteger g, biginteger p, biginteger q with
      | Except.ok gb2, Except.ok pb2, Except.ok qb2 =>
        (Except.ok (paramsMap gb2 pb2 qb2) : Except CodecError AttrMap)
      | Except.error e2, _, _ => Except.error e2
      | Except.ok _, Except.error e2, _ => Except.error e2
      | Except.ok _, Except.ok _, Except.error e2 => Except.error e2) =
        Except.error e := by
    rw [hg, hp]
  exact hinner

theorem decode_params_of_q_error {der : Bytes} {p q g : Int} {rest gb pb : Bytes}
    {e : CodecError} (h : decodeDssParms der = some ((p, q, g), rest))
    (hg : biginteger g = Except.ok gb) (hp : biginteger p = Except.ok pb)
    (hq : biginteger q = Except.error e) :
    decode_dsa_domain_parameters der = Except.error e := by
  unfold decode_dsa_domain_parameters
  rw [h]
  have hinner : (match biginteger g, biginteger p, biginteger q with
      | Except.ok gb2, Except.ok pb2, Except.ok qb2 =>
        (Except.ok (paramsMap gb2 pb2 qb2) : Except CodecError AttrMap)
      | Except.error e2, _, _ => Except.error e2
      | Except.ok _, Except.error e2, _ => Except.error e2
      | Except.ok _, Except.ok _, Except.error e2 => Except.error e2) =
        Except.error e := by
    rw [hg, hp, hq]
  exact hinner

theorem decode_params_ok_inv {der : Bytes} {out : AttrMap}
    (h : decode_dsa_domain_parameters der = Except.ok out) :
    ∃ p q g : Int, ∃ rest gb pb qb : Bytes,
      decodeDssParms der = some ((p, q, g), rest) ∧
        biginteger g = Except.ok gb ∧ biginteger p = Except.ok pb ∧
        biginteger q = Except.ok qb ∧ out = paramsMap gb pb qb := by
  cases hparse : decodeDssParms der with
  | none => rw [decode_params_of_none hparse] at h; exact absurd h (by simp)
  | some pr =>
    obtain ⟨⟨p, q, g⟩, rest⟩ := pr
    cases hg : biginteger g with
    | error e =>
      rw [decode_params_of_g_error hparse hg] at h; exact absurd h (by simp)
    | ok gb =>
      cases hp : biginteger p with
      | error e =>
        rw [decode_params_of_p_error hparse hg hp] at h; exact absurd h (by simp)
      | ok pb =>
        cases hq : biginteger q with
        | error e =>
          rw [decode_params_of_q_error hparse hg hp hq] at h; exact absurd h (by simp)
        | ok qb =>
          rw [decode_params_of_some_ok hparse hg hp hq] at h
          exact ⟨p, q, g, rest, gb, pb, qb, rfl, hg, hp, hq, by simpa using h.symm⟩

theorem decode_pubkey_of_none {der : Bytes} (h : parseInteger der = none) :
    decode_dsa_public_key der = Except.error CodecError.DECODE_ERROR := by
  unfold decode_dsa_public_key
  rw [h]

theorem decode_pubkey_of_some {der : Bytes} {v : Int} {rest : Bytes}
    (h : parseInteger der = some (v, rest)) :
    decode_dsa_public_key der = biginteger v := by
  unfold decode_dsa_public_key
  rw [h]

theorem decode_pubkey_ok_inv {der out : Bytes}
    (h : decode_dsa_public_key der = Except.ok out) :
    ∃ v : Int, ∃ rest : Bytes,
      parseInteger der = some (v, rest) ∧ biginteger v = Except.ok out := by
  cases hparse : parseInteger der with
  | none => rw [decode_pubkey_of_none hparse] at h; exact absurd h (by simp)
  | some pr =>
    obtain ⟨v, rest⟩ := pr
    rw [decode_pubkey_of_some hparse] at h
    exact ⟨v, rest, rfl, h⟩

theorem encode_pubkey_of_some {m : AttrMap} {buf : Bytes}
    (h : m Attribute.VALUE = some buf) :
    encode_dsa_public_key m = Except.ok (encodeDerIntNat (fromBytesBE buf)) := by
  unfold encode_dsa_public_key
  rw [h]

theorem encode_pubkey_of_none {m : AttrMap} (h : m Attribute.VALUE = none) :
    encode_dsa_public_key m = Except.error CodecError.MISSING_ATTRIBUTE := by
  unfold encode_dsa_public_key
  rw [h]

theorem encode_params_of_some {m : AttrMap} {bg bp bq : Bytes}
    (hg : m Attribute.BASE = some bg) (hp : m Attribute.PRIME = some bp)
    (hq : m Attribute.SUBPRIME = some bq) :
    encode_dsa_domain_parameters m =
      Except.ok (encodeDerSeq
        (encodeDerIntNat (fromBytesBE bp) ++ encodeDerIntNat (fromBytesBE bq) ++
          encodeDerIntNat (fromBytesBE bg))) := by
  unfold encode_dsa_domain_parameters
  rw [hg, hp, hq]

theorem encode_params_missing {m : AttrMap}
    (h : m Attribute.BASE = none ∨ m Attribute.PRIME = none ∨
      m Attribute.SUBPRIME = none) :
    encode_dsa_domain_parameters m = Except.error CodecError.MISSING_ATTRIBUTE := by
  unfold encode_dsa_domain_parameters
  rcases h with h | h | h
  · rw [h]
  · rw [h]
    cases m Attribute.BASE <;> rfl
  · rw [h]
    cases m Attribute.BASE <;> cases m Attribute.PRIME <;> rfl

/-! ## The claims -/

/-- Claim C1: for every 40-byte signature buffer `sig`,
`decode_dsa_signature (encode_dsa_signature sig)` returns `sig`; the
precondition that both halves are below `2 ^ 160` holds automatically
because each half of a 40-byte input is 20 bytes. -/
theorem sig_roundtrip_40 (sig : Bytes) (h40 : sig.length = 40)
    (hb : ∀ b ∈ sig, b < 256) :
    (encode_dsa_signature sig).bind decode_dsa_signature = Except.ok sig := by
  have htl : (sig.take (sig.length / 2)).length = 20 := by
    rw [List.length_take]; omega
  have hdl : (sig.drop (sig.length / 2)).length = 20 := by
    rw [List.length_drop]; omega
  have hpad := decode_encode_sig_pad sig hb (le_of_eq htl) (le_of_eq hdl)
  rw [htl, hdl] at hpad
  simpa [List.take_append_drop] using hpad

theorem sig_roundtrip_40_witness :
    (List.replicate 40 0 : Bytes).length = 40 ∧
      (∀ b ∈ (List.replicate 40 0 : Bytes), b < 256) ∧
      (encode_dsa_signature (List.replicate 40 0)).bind decode_dsa_signature =
        Except.ok (List.replicate 40 0) :=
  ⟨by decide, by decide, sig_roundtrip_40 (List.replicate 40 0) (by decide) (by decide)⟩

/-- Claim C2, counterexample: `encode_dsa_signature` does not fail on the
odd-length (39-byte) all-zero input; it returns a DER encoding, because the
code performs no length validation. -/
theorem encode_sig_odd_counterexample :
    encode_dsa_signature (List.replicate 39 0) =
      Except.ok [48, 6, 2, 1, 0, 2, 1, 0] := by
  decide

/-- Claim C2 (amended): on an odd-length input `encode_dsa_signature` does
not fail with INVALID_INPUT; it splits the buffer at `(length / 2)` (first
half one byte shorter) and encodes the halves.  In particular, for every
39-byte input the encode/decode round trip returns the input with one zero
byte prefixed. -/
theorem encode_sig_odd_amended (sig : Bytes) (hodd : sig.length % 2 = 1) :
    (∃ out : Bytes, encode_dsa_signature sig = Except.ok out) ∧
      (sig.length = 39 → (∀ b ∈ sig, b < 256) →
        (encode_dsa_signature sig).bind decode_dsa_signature =
          Except.ok (0 :: sig)) := by
  refine ⟨⟨_, rfl⟩, fun h39 hb => ?_⟩
  have htl : (sig.take (sig.length / 2)).length = 19 := by
    rw [List.length_take]; omega
  have hdl : (sig.drop (sig.length / 2)).length = 20 := by
    rw [List.length_drop]; omega
  have hpad := decode_encode_sig_pad sig hb (le_trans (le_of_eq htl) (by norm_num))
    (le_of_eq hdl)
  rw [htl, hdl] at hpad
  simpa [List.take_append_drop] using hpad

theorem encode_sig_odd_amended_witness :
    (List.replicate 39 0 : Bytes).length % 2 = 1 ∧
      (encode_dsa_signature (List.replicate 39 0)).bind decode_dsa_signature =
        Except.ok (0 :: List.replicate 39 0) :=
  ⟨by decide,
    (encode_sig_odd_amended (List.replicate 39 0) (by decide)).2 (by decide) (by decide)⟩

/-- Claim C3: for a DER input that decodes as a Dss-Sig-Value, if `r` or `s`
is at least `2 ^ 160` then `decode_dsa_signature` fails with OVERFLOW; if
both components fit in 20 unsigned bytes, it returns exactly 40 bytes, each
component left-zero-padded to 20 bytes big-endian. -/
theorem decode_sig_overflow_or_pad (der : Bytes) (r s : Int) (rest : Bytes)
    (hparse : decodeDssSigValue der = some ((r, s), rest)) :
    ((2 ^ 160 ≤ r ∨ 2 ^ 160 ≤ s) →
        decode_dsa_signature der = Except.error CodecError.OVERFLOW) ∧
      (0 ≤ r → r < 2 ^ 160 → 0 ≤ s → s < 2 ^ 160 →
        decode_dsa_signature der =
            Except.ok (natToBytesFixed 20 r.toNat ++ natToBytesFixed 20 s.toNat) ∧
          (natToBytesFixed 20 r.toNat ++ natToBytesFixed 20 s.toNat).length = 40) := by
  have hpow : (256 : Int) ^ 20 = 2 ^ 160 := by norm_num
  constructor
  · rintro (hbig | hbig)
    · exact decode_dsa_signature_of_overflow_left hparse
        (to_bytes_none_big 20 r (by rw [hpow]; exact hbig))
    · exact decode_dsa_signature_of_overflow_right hparse
        (to_bytes_none_big 20 s (by rw [hpow]; exact hbig))
  · intro h1 h2 h3 h4
    refine ⟨?_, ?_⟩
    · exact decode_dsa_signature_of_some hparse
        (to_bytes_some 20 r h1 (by rw [hpow]; exact h2))
        (to_bytes_some 20 s h3 (by rw [hpow]; exact h4))
    · rw [List.length_append, length_natToBytesFixed, length_natToBytesFixed]

theorem decode_sig_overflow_or_pad_witness :
    decodeDssSigValue [48, 6, 2, 1, 1, 2, 1, 1] = some ((1, 1), []) ∧
      decode_dsa_signature [48, 6, 2, 1, 1, 2, 1, 1] =
        Except.ok (natToBytesFixed 20 (1 : Int).toNat ++
          natToBytesFixed 20 (1 : Int).toNat) :=
  ⟨by decide,
    ((decode_sig_overflow_or_pad [48, 6, 2, 1, 1, 2, 1, 1] 1 1 [] (by decide)).2
      (by decide) (by decide) (by decide) (by decide)).1⟩

/-- Claim C4: for every attribute map whose BASE, PRIME and SUBPRIME hold
minimal big-endian encodings of non-negative integers (and no other key is
set), `decode_dsa_domain_parameters (encode_dsa_domain_parameters m) = m`. -/
theorem domain_params_roundtrip (m : AttrMap) (gv pv qv : Nat)
    (hg : m Attribute.BASE = some (bigintEncode gv))
    (hp : m Attribute.PRIME = some (bigintEncode pv))
    (hq : m Attribute.SUBPRIME = some (bigintEncode qv))
    (hv : m Attribute.VALUE = none) :
    (encode_dsa_domain_parameters m).bind decode_dsa_domain_parameters =
      Except.ok m := by
  rw [encode_params_of_some hg hp hq, Except_ok_bind, fromBytesBE_bigintEncode,
    fromBytesBE_bigintEncode, fromBytesBE_bigintEncode]
  have hparse := decodeDssParms_encode pv qv gv []
  rw [List.append_nil] at hparse
  rw [decode_params_of_some_ok hparse (biginteger_natCast gv) (biginteger_natCast pv)
    (biginteger_natCast qv)]
  congr 1
  funext a
  cases a
  · exact hg.symm
  · exact hp.symm
  · exact hq.symm
  · exact hv.symm

theorem domain_params_roundtrip_witness :
    parmsMapOne Attribute.BASE = some (bigintEncode 1) ∧
      parmsMapOne Attribute.PRIME = some (bigintEncode 1) ∧
      parmsMapOne Attribute.SUBPRIME = some (bigintEncode 1) ∧
      parmsMapOne Attribute.VALUE = none ∧
      (encode_dsa_domain_parameters parmsMapOne).bind decode_dsa_domain_parameters =
        Except.ok parmsMapOne :=
  ⟨by decide, by decide, by decide, by decide,
    domain_params_roundtrip parmsMapOne 1 1 1 (by decide) (by decide) (by decide)
      (by decide)⟩

/-- Claim C5: for every non-negative integer `v` expressible in at most `N`
bytes, encoding a map whose VALUE is the minimal big-endian encoding of `v`
with `encode_dsa_public_key` and decoding back with `decode_dsa_public_key`
returns the minimal encoding of `v`; in particular the round trip holds at
`v = 0`. -/
theorem public_key_roundtrip (v N : Nat) (hN : v < 256 ^ N) (m : AttrMap)
    (hm : m Attribute.VALUE = some (bigintEncode v)) :
    (encode_dsa_public_key m).bind decode_dsa_public_key =
      Except.ok (bigintEncode v) := by
  rw [encode_pubkey_of_some hm, Except_ok_bind, fromBytesBE_bigintEncode]
  have hparse := parseInteger_encode v []
  rw [List.append_nil] at hparse
  rw [decode_pubkey_of_some hparse, biginteger_natCast]

theorem public_key_roundtrip_witness :
    (0 : Nat) < 256 ^ 1 ∧
      valueZeroMap Attribute.VALUE = some (bigintEncode 0) ∧
      (encode_dsa_public_key valueZeroMap).bind decode_dsa_public_key =
        Except.ok (bigintEncode 0) :=
  ⟨by decide, by decide,
    public_key_roundtrip 0 1 (by decide) valueZeroMap (by decide)⟩

/-- Claim C6: `encode_dsa_domain_parameters` fails with MISSING_ATTRIBUTE
exactly when one of BASE, PRIME, SUBPRIME is absent, and
`encode_dsa_public_key` fails with MISSING_ATTRIBUTE exactly when VALUE is
absent. -/
theorem missing_attribute_iff :
    (∀ m : AttrMap,
        (encode_dsa_domain_parameters m = Except.error CodecError.MISSING_ATTRIBUTE ↔
          (m Attribute.BASE = none ∨ m Attribute.PRIME = none ∨
            m Attribute.SUBPRIME = none))) ∧
      ∀ m : AttrMap,
        (encode_dsa_public_key m = Except.error CodecError.MISSING_ATTRIBUTE ↔
          m Attribute.VALUE = none) := by
  constructor
  · intro m
    constructor
    · intro henc
      by_contra hcon
      push_neg at hcon
      obtain ⟨h1, h2, h3⟩ := hcon
      obtain ⟨bg, hg⟩ := Option.ne_none_iff_exists'.mp h1
      obtain ⟨bp, hp⟩ := Option.ne_none_iff_exists'.mp h2
      obtain ⟨bq, hq⟩ := Option.ne_none_iff_exists'.mp h3
      rw [encode_params_of_some hg hp hq] at henc
      exact absurd henc (by simp)
    · exact encode_params_missing
  · intro m
    constructor
    · intro henc
      cases hV : m Attribute.VALUE with
      | none => rfl
      | some buf =>
        rw [encode_pubkey_of_some hV] at henc
        exact absurd henc (by simp)
    · exact encode_pubkey_of_none

theorem missing_attribute_iff_witness :
    encode_dsa_domain_parameters valueEmptyMap =
        Except.error CodecError.MISSING_ATTRIBUTE ∧
      encode_dsa_public_key (fun _ => none) =
        Except.error CodecError.MISSING_ATTRIBUTE :=
  ⟨(missing_attribute_iff.1 valueEmptyMap).mpr (Or.inl rfl),
    (missing_attribute_iff.2 (fun _ => none)).mpr rfl⟩

/-- Claim C7: `decode_dsa_signature` applied to the DER encoding of
Dss-Sig-Value with `r = 1, s = 1` (bytes `30 06 02 01 01 02 01 01`) returns
exactly 40 bytes: 19 zero bytes then `0x01`, repeated twice. -/
theorem decode_sig_r1_s1 :
    decode_dsa_signature [48, 6, 2, 1, 1, 2, 1, 1] =
      Except.ok (List.replicate 19 0 ++ [1] ++ (List.replicate 19 0 ++ [1])) := by
  decide

/-- Claim C8: encoding a map whose VALUE buffer represents the integer zero
produces the DER INTEGER `02 01 00`, whose content octets are the single
byte `0x00`; an empty buffer is interpreted as the integer zero. -/
theorem encode_public_key_zero (m : AttrMap) (buf : Bytes)
    (hm : m Attribute.VALUE = some buf) (h0 : fromBytesBE buf = 0) :
    encode_dsa_public_key m = Except.ok [2, 1, 0] ∧ derIntContent 0 = [0] ∧
      fromBytesBE [] = 0 := by
  refine ⟨?_, rfl, rfl⟩
  rw [encode_pubkey_of_some hm, h0]
  decide

theorem encode_public_key_zero_witness :
    valueEmptyMap Attribute.VALUE = some [] ∧ fromBytesBE [] = 0 ∧
      encode_dsa_public_key valueEmptyMap = Except.ok [2, 1, 0] :=
  ⟨rfl, rfl, (encode_public_key_zero valueEmptyMap [] rfl rfl).1⟩

/-- Claim C9: all three decoders accept a valid DER structure followed by
arbitrary trailing bytes: the remainder returned by the DER decoder is
discarded, so whenever decoding `d` succeeds, decoding `d ++ t` succeeds
with the same result. -/
theorem decoders_ignore_trailing :
    (∀ d t out1 : Bytes, decode_dsa_signature d = Except.ok out1 →
        decode_dsa_signature (d ++ t) = Except.ok out1) ∧
      (∀ d t out2 : Bytes, decode_dsa_public_key d = Except.ok out2 →
        decode_dsa_public_key (d ++ t) = Except.ok out2) ∧
      ∀ d t : Bytes, ∀ out3 : AttrMap, decode_dsa_domain_parameters d = Except.ok out3 →
        decode_dsa_domain_parameters (d ++ t) = Except.ok out3 := by
  refine ⟨fun d t out1 h => ?_, fun d t out2 h => ?_, fun d t out3 h => ?_⟩
  · obtain ⟨r, s, rest, rb, sb, hparse, hr, hs, hout⟩ := decode_dsa_signature_ok_inv h
    subst hout
    exact decode_dsa_signature_of_some (decodeDssSigValue_extend hparse) hr hs
  · obtain ⟨v, rest, hparse, hv⟩ := decode_pubkey_ok_inv h
    rw [decode_pubkey_of_some (parseInteger_extend hparse)]
    exact hv
  · obtain ⟨p, q, g, rest, gb, pb, qb, hparse, hg, hp, hq, hout⟩ :=
      decode_params_ok_inv h
    subst hout
    exact decode_params_of_some_ok (decodeDssParms_extend hparse) hg hp hq

theorem decoders_ignore_trailing_witness :
    decode_dsa_signature ([48, 6, 2, 1, 1, 2, 1, 1] ++ [7]) =
        Except.ok (natToBytesFixed 20 1 ++ natToBytesFixed 20 1) ∧
      decode_dsa_public_key ([2, 1, 0] ++ [7]) = Except.ok (bigintEncode 0) ∧
      decode_dsa_domain_parameters (parmsDerOne ++ [7]) =
        Except.ok (paramsMap (bigintEncode 1) (bigintEncode 1) (bigintEncode 1)) :=
  ⟨decoders_ignore_trailing.1 _ [7] _ (by decide),
    decoders_ignore_trailing.2.1 _ [7] _ (by decide),
    decoders_ignore_trailing.2.2 _ [7] _
      (@decode_params_of_some_ok parmsDerOne 1 1 1 [] (bigintEncode 1) (bigintEncode 1)
        (bigintEncode 1) (by decide) (by decide) (by decide) (by decide))⟩

/-- Claim C10: for every DER input decoding as a Dss-Sig-Value with a
negative `r` or `s`, `decode_dsa_signature` fails (the fixed-width 20-byte
re-encoding rejects negative values); consequently every successful result
comes from two non-negative integers. -/
theorem decode_sig_negative_fails :
    (∀ d : Bytes, ∀ r s : Int, ∀ rest : Bytes,
        decodeDssSigValue d = some ((r, s), rest) → r < 0 ∨ s < 0 →
          decode_dsa_signature d = Except.error CodecError.OVERFLOW) ∧
      ∀ d out : Bytes, decode_dsa_signature d = Except.ok out →
        ∃ r s : Int, ∃ rest : Bytes,
          decodeDssSigValue d = some ((r, s), rest) ∧ 0 ≤ r ∧ 0 ≤ s := by
  constructor
  · rintro d r s rest hparse (hneg | hneg)
    · exact decode_dsa_signature_of_overflow_left hparse (to_bytes_none_neg 20 r hneg)
    · exact decode_dsa_signature_of_overflow_right hparse (to_bytes_none_neg 20 s hneg)
  · intro d out h
    obtain ⟨r, s, rest, rb, sb, hparse, hr, hs, _⟩ := decode_dsa_signature_ok_inv h
    exact ⟨r, s, rest, hparse, to_bytes_some_nonneg hr, to_bytes_some_nonneg hs⟩

theorem decode_sig_negative_fails_witness :
    decodeDssSigValue [48, 6, 2, 1, 255, 2, 1, 1] = some ((-1, 1), []) ∧
      decode_dsa_signature [48, 6, 2, 1, 255, 2, 1, 1] =
        Except.error CodecError.OVERFLOW :=
  ⟨by decide,
    decode_sig_negative_fails.1 [48, 6, 2, 1, 255, 2, 1, 1] (-1) 1 [] (by decide)
      (by decide)⟩

end Pkcs11
